import Mathlib

/-!
Shallow embedding of the EdgeSearch core (workers/api) together with proofs
about its framing codec, durable reader, bulk reader, keyword merger,
posting-shard store, document entity and boolean query pipeline.

Modelling conventions:
* Byte strings are `List Nat` (each entry standing for one byte).
* `f64` scores are modelled as `Option ℚ`: `some q` is a finite float value
  (exact rational arithmetic abstracts the platform's rounding, which no
  claim depends on) and `none` is NaN.
* Machine integers are `Nat` with an explicit `% 2^32` where the Rust code
  performs a `u32` cast or where `u32` overflow matters.
* The key-value store is a partial map `String → Option (List Nat)`
  (JSON decoding of an entity is an explicit `List Nat → Option _` argument,
  standing for `serde_json::from_slice`); fallible or panicking code paths
  return `Option`, `none` standing for a Rust panic.
-/

/-- A float score: `some q` is a finite `f64` value, `none` is NaN. -/
abbrev Score := Option ℚ

/-- Three-way rational comparison, the total order underlying `f64`
comparisons on non-NaN values. -/
def rat_cmp (a b : ℚ) : Ordering :=
  if a < b then Ordering.lt else if a = b then Ordering.eq else Ordering.gt

/-- Model of Rust `f64::partial_cmp`: `None` iff either operand is NaN. -/
def f64_pcmp : Score → Score → Option Ordering
  | some a, some b => some (rat_cmp a b)
  | _, _ => none

/- ----------------------------------------------------------------
Section: framing codec (src/workers/api/src/durable/reader.rs,
src/workers/api/src/data/encoding.rs)
---------------------------------------------------------------- -/

/-- The four bytes of `(n : u32).to_le_bytes()`. -/
def u32_to_le_bytes (n : Nat) : List Nat :=
  [n % 256, n / 256 % 256, n / 65536 % 256, n / 16777216 % 256]

/-- `u32::from_le_bytes([b0, b1, b2, b3])`. -/
def u32_from_le_bytes (b0 b1 b2 b3 : Nat) : Nat :=
  b0 + 256 * b1 + 65536 * b2 + 16777216 * b3

/-- Source `reader.rs::length_prefix_data`: append `data.len() as u32` in
little-endian followed by the data to `output`.  The `as u32` cast is the
explicit `% 2^32` (on the wasm32 target `usize` is 32-bit so the cast is
lossless there). -/
def length_prefix_data (data : List Nat) (output : List Nat) : List Nat :=
  output ++ u32_to_le_bytes (data.length % 4294967296) ++ data

/-- The framing loop of `DurableReader::fetch`:
`for doc in docs { length_prefix_data(doc, &mut output) }` starting from an
empty output buffer. -/
def frame_all (payloads : List (List Nat)) : List Nat :=
  payloads.foldl (fun out d => length_prefix_data d out) []

/-- Source `encoding.rs::read_one_length_prefixed`: `None` if fewer than 4
bytes remain or the buffer is shorter than the announced length, else the
announced number of bytes after the 4-byte prefix. -/
def read_one_length_prefixed (data : List Nat) : Option (List Nat) :=
  match data with
  | b0 :: b1 :: b2 :: b3 :: rest =>
    if rest.length < u32_from_le_bytes b0 b1 b2 b3 then none
    else some (rest.take (u32_from_le_bytes b0 b1 b2 b3))
  | _ => none

/-- Source `encoding.rs::read_length_prefixed`, at frame granularity: read
`(len, bytes)` pairs until the buffer is exhausted.  The source additionally
maps each frame through `serde_json::from_slice::<T>(..).unwrap()`; that
typed layer is left to callers (see `dser` arguments below).  When
`read_one_length_prefixed` fails (partial trailer) the source substitutes the
empty slice, whose JSON parse then panics via `.unwrap()` — modelled as
`none`.  The `u32` cursor arithmetic of the source loop coincides with this
`Nat` recursion whenever the buffer is shorter than `2^32` bytes (always true
on the wasm32 target). -/
def read_length_prefixed (data : List Nat) : Option (List (List Nat)) :=
  if h : data = [] then some []
  else
    match read_one_length_prefixed data with
    | some lp => (read_length_prefixed (data.drop (4 + lp.length))).map (fun r => lp :: r)
    | none => none
termination_by data.length
decreasing_by
  simp only [List.length_drop]
  have : 0 < data.length := List.length_pos.mpr h
  omega

/- ----------------------------------------------------------------
Section: durable reader actor (src/workers/api/src/durable/reader.rs)
---------------------------------------------------------------- -/

/-- The key-value store: raw bytes per key, `none` for a missing key.  KV
transport errors are not modelled (every claim concerns store contents). -/
abbrev KvStore := String → Option (List Nat)

/-- Source `reader.rs::get_keyword_limit`: `1_000u32 / n_shards`. -/
def get_keyword_limit (n_shards : Nat) : Nat := 1000 / n_shards

/-- Source `reader.rs::get_document_limit`: `990u32`. -/
def get_document_limit : Nat := 990

/-- Rust `str::split(',')` at the character level: the pieces between
commas, in order, including empty pieces (one piece more than there are
commas). -/
def split_commas : List Char → List (List Char)
  | [] => [[]]
  | c :: rest =>
    if c = ',' then [] :: split_commas rest
    else
      match split_commas rest with
      | [] => [[c]]
      | w :: ws => (c :: w) :: ws

/-- Source `reader.rs::parse_body`: split the CSV body on `,` and drop the
entries that are empty after trimming — i.e. an entry survives the
`!s.trim().is_empty()` filter iff it has at least one non-whitespace
character. -/
def parse_body (body : String) : List String :=
  ((split_commas body.data).map (fun w => String.mk w)).filter
    (fun s => !(s.data.all (fun c => c.isWhitespace)))

/-- A durable-object HTTP response: success bytes or `Response::error`. -/
inductive DurableResponse
  | ok (body : List Nat)
  | err (msg : String) (status : Nat)
deriving DecidableEq

/-- The raw bytes of a response body (`Response::error` carries its message
as UTF-8 text). -/
def response_bytes : DurableResponse → List Nat
  | .ok b => b
  | .err msg _ => msg.toUTF8.toList.map (fun b => b.toNat)

/-- Sequence a fallible operation over a list, propagating the first
failure: the shape of a `join_all` over futures whose bodies `.unwrap()`. -/
def option_traverse (f : α → Option β) : List α → Option (List β)
  | [] => some []
  | a :: l =>
    match f a with
    | none => none
    | some b => (option_traverse f l).map (fun bs => b :: bs)

namespace DurableReader

/-- Source `DurableReader::get_documents`: one parallel `get` per key;
`.unwrap_or(Some(vec![]))` substitutes an empty payload only on a KV
transport error, while a missing key (`Ok(None)`) hits the final `.unwrap()`
and panics — hence the failure-propagating traversal. -/
def get_documents (store : KvStore) (doc_ids : List String) : Option (List (List Nat)) :=
  option_traverse store doc_ids

/-- Source `DurableReader::get_keywords`: one parallel `get` per key, then
`filter_map(|res| res.ok().flatten())` — missing keys are silently dropped
from the result. -/
def get_keywords (store : KvStore) (keywords : List String) : List (List Nat) :=
  keywords.filterMap store

/-- The `"/keywords"` arm of `DurableReader::fetch`, after `parse_body`. -/
def handle_keywords (n_shards : Nat) (store : KvStore) (entries : List String) :
    Option DurableResponse :=
  if entries.length > get_keyword_limit n_shards then
    some (.err ("Too many keywords requested. Current limit: "
      ++ toString (get_keyword_limit n_shards)) 400)
  else if entries.isEmpty then
    some (.err "No keywords provided" 400)
  else
    some (.ok (frame_all (get_keywords store entries)))

/-- The `"/documents"` arm of `DurableReader::fetch`, after `parse_body`.
Note the source compares against `get_keyword_limit`, not
`get_document_limit`, in this arm too. -/
def handle_documents (n_shards : Nat) (store : KvStore) (entries : List String) :
    Option DurableResponse :=
  if entries.length > get_keyword_limit n_shards then
    some (.err ("Too many document IDs requested. Current limit: "
      ++ toString (get_keyword_limit n_shards)) 400)
  else if entries.isEmpty then
    some (.err "No document IDs provided" 400)
  else
    (get_documents store entries).map (fun bodies => .ok (frame_all bodies))

/-- Source `DurableReader::fetch` for a `POST` request (the only method the
callers use; other methods return the same 405 as unknown paths). -/
def fetch (n_shards : Nat) (store : KvStore) (path : String) (body : String) :
    Option DurableResponse :=
  if path = "/keywords" then handle_keywords n_shards store (parse_body body)
  else if path = "/documents" then handle_documents n_shards store (parse_body body)
  else some (.err "Method Not Allowed" 405)

end DurableReader

/- ----------------------------------------------------------------
Section: data entities (src/workers/api/src/data/keyword_shard.rs,
src/workers/api/src/data/document.rs)
---------------------------------------------------------------- -/

/-- Source `KeywordShardData` (keyword_shard.rs). -/
structure KeywordShardData where
  index : String
  keyword : String
  shard : Nat
  ts : Nat
  docs : List (String × Score)
deriving DecidableEq

/-- Source `Document` (document.rs); `lang` is the ISO-639-1 code as a
string, the `lingua` enum being external. -/
structure Document where
  uuid : String
  index : String
  revision : Nat
  lang : Option String
  document_body : Option String
  keywords : Option (List (String × Score))
deriving DecidableEq

/-- Source `document.rs::document_kv_key` with `PREFIX_DOCUMENT = "document:"`. -/
def document_kv_key (index uuid : String) : String :=
  index ++ ":" ++ "document:" ++ uuid

/-- Source `document.rs::shard_from_document_id`.  `hash` abstracts
`be_u32(sha256(doc_id)[0..4])` (the external `sha2` crate); the shard is that
value `mod num_shards`. -/
def shard_from_document_id (hash : String → Nat) (doc_id : String) (num_shards : Nat) : Nat :=
  hash doc_id % num_shards

/-- Source `keyword_shard.rs::keyword_shard_kv_key` with
`PREFIX_KEYWORD = "kw:"`. -/
def keyword_shard_kv_key (index keyword : String) (shard : Nat) : String :=
  index ++ ":" ++ "kw:" ++ keyword ++ ":" ++ toString shard

/- ----------------------------------------------------------------
Section: bulk reader (src/workers/api/src/data/bulk.rs)
---------------------------------------------------------------- -/

/-- Structural-recursion core of `list_chunks` (`fuel` is an upper bound on
the number of chunks; `list_chunks` passes the list length, which always
suffices since every chunk is nonempty). -/
def chunks_go (k : Nat) : Nat → List α → List (List α)
  | _, [] => []
  | 0, _ :: _ => []
  | fuel + 1, a :: l => (a :: l.take k) :: chunks_go k fuel (l.drop k)

/-- Rust `slice::chunks(k)`: consecutive chunks of at most `k` elements.
`chunks(0)` panics in Rust; it is never reached by the callers modelled
here. -/
def list_chunks (k : Nat) (l : List α) : List (List α) :=
  match k with
  | 0 => []
  | k' + 1 => chunks_go k' l.length l

namespace BulkReader

/-- The `read_type` dispatch at the top of `BulkReader::chunked_request`:
keywords chunk at `get_keyword_limit`, documents at the literal `1000u32`
(not `get_document_limit`); any other value panics (`none`). -/
def chunk_size (read_type : String) (n_shards : Nat) : Option Nat :=
  if read_type = "/keywords" then some (get_keyword_limit n_shards)
  else if read_type = "/documents" then some 1000
  else none

/-- Source `BulkReader::chunked_request`, at frame granularity: chunk the
keys, POST each chunk's comma-joined keys to the durable reader, then decode
each response body with `read_length_prefixed` and flatten.  (The source
additionally deserializes each frame; callers below apply `dser`.)  Rust
`slice::chunks(0)` panics, hence the `none` guard on a zero chunk size
(reached only when `N_SHARDS > 1000`). -/
def chunked_request (n_shards : Nat) (store : KvStore) (read_type : String)
    (kv_keys : List String) : Option (List (List Nat)) := do
  let max_per_chunk ← chunk_size read_type n_shards
  if max_per_chunk = 0 then
    none
  else
  let chunks := list_chunks max_per_chunk kv_keys
  let responses ← option_traverse (fun chunk =>
    DurableReader.fetch n_shards store read_type (String.intercalate "," chunk)) chunks
  let frames ← option_traverse (fun resp => read_length_prefixed (response_bytes resp))
    responses
  pure frames.flatten

/-- Source `BulkReader::get_keyword_kv_keys`: below the keyword limit, one
direct `KeywordShardData::read(..).unwrap()` per key (a missing or
undecodable key panics — `none`); otherwise the chunked durable-object
path.  `dser` is `serde_json::from_slice::<KeywordShardData>`. -/
def get_keyword_kv_keys (n_shards : Nat) (store : KvStore)
    (dser : List Nat → Option KeywordShardData) (kv_keys : List String) :
    Option (List KeywordShardData) :=
  if kv_keys.length < get_keyword_limit n_shards then
    option_traverse (fun k => (store k).bind dser) kv_keys
  else
    (chunked_request n_shards store "/keywords" kv_keys).bind
      (fun frames => option_traverse dser frames)

/-- Source `BulkReader::get_documents_kv_keys`: below `get_document_limit`,
one direct `Document::read(..).unwrap()` per key (a missing or undecodable
key panics — `none`); otherwise the chunked durable-object path.  `dser` is
`serde_json::from_slice::<Document>`. -/
def get_documents_kv_keys (n_shards : Nat) (store : KvStore)
    (dser : List Nat → Option Document) (kv_keys : List String) :
    Option (List Document) :=
  if kv_keys.length < get_document_limit then
    option_traverse (fun k => (store k).bind dser) kv_keys
  else
    (chunked_request n_shards store "/documents" kv_keys).bind
      (fun frames => option_traverse dser frames)

end BulkReader

/-- One page of a KV `list` call (worker::kv::ListResponse). -/
structure ListResponse where
  keys : List String
  list_complete : Bool
  cursor : Option Nat
deriving DecidableEq

/-- A KV listing backend: a page per `(prefix, cursor)` pair. -/
abbrev Lister := String → Option Nat → ListResponse

namespace BulkReader

/-- The pagination loop of `BulkReader::list` (the Rust `while` is unbounded;
`fuel` bounds it here and any terminating listing fits some fuel). -/
def list_go (lister : Lister) (pfx : String) : Nat → ListResponse → List String → List String
  | 0, _, acc => acc
  | fuel + 1, resp, acc =>
    if resp.list_complete then acc
    else
      match resp.cursor with
      | some c =>
        let resp' := lister pfx (some c)
        list_go lister pfx fuel resp' (acc ++ resp'.keys)
      | none => acc

/-- Source `BulkReader::list`: first page, then follow cursors until
`list_complete`. -/
def list (lister : Lister) (pfx : String) (fuel : Nat) : List String :=
  let response := lister pfx none
  list_go lister pfx fuel response response.keys

end BulkReader

/- ----------------------------------------------------------------
Section: keyword merger (src/workers/api/src/data/keyword.rs)
---------------------------------------------------------------- -/

/-- The listing prefix `format!("{}:{}{}:", index, PREFIX_KEYWORD, keyword)`
used by `KeywordManager::merge_keyword_shards`. -/
def keyword_shard_key_stem (index keyword : String) : String :=
  index ++ ":" ++ "kw:" ++ keyword ++ ":"

/-- Insert `a` into `l` before the first element `b` with `le a b`. -/
def ordered_insert (le : α → α → Bool) (a : α) : List α → List α
  | [] => [a]
  | b :: l => if le a b then a :: b :: l else b :: ordered_insert le a l

/-- Stable insertion sort with a boolean `le`. -/
def insertion_sort (le : α → α → Bool) : List α → List α
  | [] => []
  | a :: l => ordered_insert le a (insertion_sort le l)

/-- The boolean order induced by a comparator, as Rust `sort_by` consumes
it: `a` may precede `b` iff `cmp a b ≠ Greater`. -/
def cmp_le (cmp : α → α → Ordering) (a b : α) : Bool :=
  !(cmp a b == Ordering.gt)

/-- Model of Rust `Vec::sort_by` (a stable sort ordered by `cmp`); any two
stable sorts agree whenever `cmp` is consistent, which is the case here away
from NaN. -/
def rust_sort_by (cmp : α → α → Ordering) (l : List α) : List α :=
  insertion_sort (cmp_le cmp) l

/-- The comparator of `merge_keyword_shards`:
`b.1.partial_cmp(&a.1).unwrap_or(Equal)` — score-descending, with NaN
comparing as equal to everything. -/
def score_cmp_desc (a b : String × Score) : Ordering :=
  (f64_pcmp b.2 a.2).getD Ordering.eq

namespace KeywordManager

/-- Source `KeywordManager::merge_keyword_shards`.  The keyword reaches this
function URL-decoded (the `url` crate is external).  The source issues a
single `list().prefix(..).execute()` call — only the first page — then bulk
reads the listed keys, asserts the count matches (an assertion failure
panics — `none`), flattens every shard's `docs` and sorts by score
descending. -/
def merge_keyword_shards (lister : Lister) (n_shards : Nat) (store : KvStore)
    (dser : List Nat → Option KeywordShardData) (index keyword : String) :
    Option (List (String × Score)) :=
  let keyword_shards := lister (keyword_shard_key_stem index keyword) none
  let kv_keys := keyword_shards.keys
  match BulkReader.get_keyword_kv_keys n_shards store dser kv_keys with
  | none => none
  | some kv_data =>
    if kv_data.length = kv_keys.length then
      some (rust_sort_by score_cmp_desc (kv_data.map (fun d => d.docs)).flatten)
    else none

end KeywordManager

/- ----------------------------------------------------------------
Section: posting-shard store operations and the document entity
(src/workers/api/src/data/keyword_shard.rs, document.rs)
---------------------------------------------------------------- -/

/-- The two entity views of the KV store that `Document::update` touches. -/
structure Stores where
  docs : String → Option Document
  shards : String → Option KeywordShardData

/-- Write a document value at a key. -/
def put_doc (st : Stores) (k : String) (d : Document) : Stores :=
  { st with docs := fun k' => if k' = k then some d else st.docs k' }

/-- Write a keyword-shard value at a key. -/
def put_shard (st : Stores) (k : String) (s : KeywordShardData) : Stores :=
  { st with shards := fun k' => if k' = k then some s else st.shards k' }

namespace KeywordShardData

/-- Source `KvEntry::get_kv_key` for `KeywordShardData`. -/
def get_kv_key (s : KeywordShardData) : String :=
  keyword_shard_kv_key s.index s.keyword s.shard

/-- Source `KeywordShardData::add_document`: if no entry for `doc_id`
exists, append `(doc_id, score)`, stamp `ts := now` and report that a write
back is needed; otherwise do nothing. -/
def add_document (s : KeywordShardData) (doc_id : String) (score : Score) (now : Nat) :
    KeywordShardData × Bool :=
  if !(s.docs.any (fun p => p.1 == doc_id)) then
    ({ s with docs := s.docs ++ [(doc_id, score)], ts := now }, true)
  else (s, false)

/-- Source `KeywordShardData::remove_document`: retain entries with another
id; write back (with `ts := now`) only if the list shrank. -/
def remove_document (s : KeywordShardData) (doc_id : String) (now : Nat) :
    KeywordShardData × Bool :=
  let docs' := s.docs.filter (fun p => !(p.1 == doc_id))
  if docs'.length ≠ s.docs.length then ({ s with docs := docs', ts := now }, true)
  else (s, false)

/-- Source `KeywordShardData::from_keyword`: read the shard for
`(keyword, shard_of doc_id)`; if absent, create a fresh one with `ts = now`,
empty `docs`, write it, and return it. -/
def from_keyword (hash : String → Nat) (n_shards : Nat) (now : Nat) (st : Stores)
    (index doc_id keyword : String) : KeywordShardData × Stores :=
  let shard := shard_from_document_id hash doc_id n_shards
  let key := keyword_shard_kv_key index keyword shard
  match st.shards key with
  | some shard_data => (shard_data, st)
  | none =>
    let fresh : KeywordShardData := ⟨index, keyword, shard, now, []⟩
    (fresh, put_shard st fresh.get_kv_key fresh)

end KeywordShardData

namespace Document

/-- One iteration of the removal loop in `Document::update`: load-or-create
the shard, remove the document, write back if it shrank (shard-write
failures are logged and swallowed; the pure model has none). -/
def update_remove_step (hash : String → Nat) (n_shards now : Nat)
    (index doc_id : String) (st : Stores) (kw : String) : Stores :=
  let loaded := KeywordShardData.from_keyword hash n_shards now st index doc_id kw
  let removed := loaded.1.remove_document doc_id now
  if removed.2 then put_shard loaded.2 removed.1.get_kv_key removed.1 else loaded.2

/-- One iteration of the addition loop in `Document::update`. -/
def update_add_step (hash : String → Nat) (n_shards now : Nat)
    (index doc_id : String) (st : Stores) (kw_score : String × Score) : Stores :=
  let loaded := KeywordShardData.from_keyword hash n_shards now st index doc_id kw_score.1
  let added := loaded.1.add_document doc_id kw_score.2 now
  if added.2 then put_shard loaded.2 added.1.get_kv_key added.1 else loaded.2

/-- Source `Document::update`.  `detect` abstracts the `lingua` language
detector and `extract` the stopword lookup plus YAKE scoring pipeline
(`get_n_best(50, ..)` mapped to `(keyword, 1 - raw_score)`), both external
crates; `extract` receives the resolved language and the new body.  If no
language is set and none is detected, `self.lang.unwrap()` panics (`none`).
The revision is a `u32`, so the increment wraps at `2^32`.  The `join_all`
fan-out over shard updates is sequentialised (every future touches a
distinct shard key, so the interleaving is immaterial); returns the new
revision. -/
def update (hash : String → Nat) (n_shards : Nat) (detect : String → Option String)
    (extract : String → String → List (String × Score)) (now : Nat)
    (doc : Document) (st : Stores) (document_body : String) (recalculate_lang : Bool) :
    Option (Document × Stores × Nat) :=
  let lang0 :=
    if doc.lang.isNone ∨ recalculate_lang then
      match detect document_body with
      | some l => some l
      | none => doc.lang
    else doc.lang
  match lang0 with
  | none => none
  | some lang =>
    let new_keywords := extract lang document_body
    let old_keywords := doc.keywords.getD []
    let new_names := new_keywords.map (fun p => p.1)
    let kw_removed := ((old_keywords.map (fun p => p.1)).dedup).filter
      (fun k => !(new_names.contains k))
    let doc' := { doc with
      lang := some lang,
      keywords := some new_keywords,
      document_body := some document_body,
      revision := (doc.revision + 1) % 4294967296 }
    let st1 := put_doc st (document_kv_key doc'.index doc'.uuid) doc'
    let st2 := kw_removed.foldl (update_remove_step hash n_shards now doc.index doc.uuid) st1
    let st3 := new_keywords.foldl (update_add_step hash n_shards now doc.index doc.uuid) st2
    some (doc', st3, doc'.revision)

end Document

/- ----------------------------------------------------------------
Section: query tokenizer and recursive-descent parsing
(src/workers/api/src/lexer/tokenizer.rs, lexer/mod.rs)
---------------------------------------------------------------- -/

/-- Source `lexer/mod.rs::Token`. -/
inductive Token
  | word (w : String)
  | and
  | or
  | not
  | lparen
  | rparen
deriving DecidableEq

/-- Source `lexer/mod.rs::QueryError` (the `UnexpectedEof` and
`MissingClosingParen` variants are never constructed by the source). -/
inductive QueryError
  | invalidToken (c : Char)
  | unexpectedEof
  | unclosedQuote
  | emptyQuery
  | missingClosingParen
deriving DecidableEq

/-- Source `lexer/mod.rs::Expr`. -/
inductive Expr
  | word (w : String)
  | not (e : Expr)
  | and (l r : Expr)
  | or (l r : Expr)
deriving DecidableEq

/-- The quoted-word scanning loop of `StringTokenizer::tokenize`: characters
up to the closing `"` plus the remainder after it; `none` when the quote is
never closed. -/
def scan_word : List Char → Option (List Char × List Char)
  | [] => none
  | c :: rest =>
    if c = '"' then some ([], rest)
    else (scan_word rest).map (fun p => (c :: p.1, p.2))

/-- Character loop of `StringTokenizer::tokenize`.  `fuel` makes the
recursion structural; it is initialised to the character count, which always
suffices because every step consumes at least one character (the exhaustion
branch is unreachable). -/
def tokenize_go : Nat → List Char → Except QueryError (List Token)
  | _, [] => .ok []
  | 0, _ :: _ => .error .unexpectedEof
  | fuel + 1, c :: rest =>
    if c = ' ' ∨ c = '\t' ∨ c = '\n' then tokenize_go fuel rest
    else if c = '(' then (tokenize_go fuel rest).map (fun ts => Token.lparen :: ts)
    else if c = ')' then (tokenize_go fuel rest).map (fun ts => Token.rparen :: ts)
    else if c = '&' then
      match rest with
      | d :: rest' =>
        if d = '&' then (tokenize_go fuel rest').map (fun ts => Token.and :: ts)
        else .error (.invalidToken c)
      | [] => .error (.invalidToken c)
    else if c = '|' then
      match rest with
      | d :: rest' =>
        if d = '|' then (tokenize_go fuel rest').map (fun ts => Token.or :: ts)
        else .error (.invalidToken c)
      | [] => .error (.invalidToken c)
    else if c = '~' then (tokenize_go fuel rest).map (fun ts => Token.not :: ts)
    else if c = '"' then
      match scan_word rest with
      | some (w, rest') => (tokenize_go fuel rest').map (fun ts => Token.word (String.mk w) :: ts)
      | none => .error .unclosedQuote
    else .error (.invalidToken c)

/-- The frames of the mutually recursive descent in `StringTokenizer`:
`parse_or` / its `while Or` loop, `parse_and` / its `while And` loop,
`parse_not`, `parse_primary`. -/
inductive ParseFrame
  | or_start
  | or_loop (left : Expr)
  | and_start
  | and_loop (left : Expr)
  | not_start
  | primary

/-- The four mutually recursive parsing functions of `StringTokenizer`
(`parse_or`, `parse_and`, `parse_not`, `parse_primary`), fused over an
explicit frame so the recursion is structural on `fuel`.  Each recursive
call spends one unit of fuel; `StringTokenizer.parse` supplies enough fuel
that exhaustion (`none` at fuel 0) is unreachable.  The token iterator is
the returned remainder list. -/
def parse_run : Nat → ParseFrame → List Token → Option (Expr × List Token)
  | 0, _, _ => none
  | fuel + 1, frame, ts =>
    match frame with
    | .or_start =>
      match parse_run fuel .and_start ts with
      | none => none
      | some (left, ts1) => parse_run fuel (.or_loop left) ts1
    | .or_loop left =>
      match ts with
      | Token.or :: rest =>
        match parse_run fuel .and_start rest with
        | none => none
        | some (right, ts2) => parse_run fuel (.or_loop (Expr.or left right)) ts2
      | _ => some (left, ts)
    | .and_start =>
      match parse_run fuel .not_start ts with
      | none => none
      | some (left, ts1) => parse_run fuel (.and_loop left) ts1
    | .and_loop left =>
      match ts with
      | Token.and :: rest =>
        match parse_run fuel .not_start rest with
        | none => none
        | some (right, ts2) => parse_run fuel (.and_loop (Expr.and left right)) ts2
      | _ => some (left, ts)
    | .not_start =>
      match ts with
      | Token.not :: rest =>
        match parse_run fuel .primary rest with
        | none => none
        | some (e, ts1) => some (Expr.not e, ts1)
      | _ => parse_run fuel .primary ts
    | .primary =>
      match ts with
      | Token.word w :: rest => some (Expr.word w, rest)
      | Token.lparen :: rest =>
        match parse_run fuel .or_start rest with
        | none => none
        | some (e, ts1) =>
          match ts1 with
          | Token.rparen :: rest' => some (e, rest')
          | _ => none
      | _ => none

namespace StringTokenizer

/-- Source `StringTokenizer::tokenize`. -/
def tokenize (input : String) : Except QueryError (List Token) :=
  tokenize_go input.data.length input.data

/-- Source `StringTokenizer::parse`: run `parse_or` from the start of the
token stream; leftover tokens are ignored (the source never checks that the
iterator is exhausted). -/
def parse (tokens : List Token) : Option Expr :=
  (parse_run (8 * tokens.length + 8) ParseFrame.or_start tokens).map (fun p => p.1)

end StringTokenizer

/-- Source `impl Display for Expr` (lexer/mod.rs): words print unquoted,
`Not` as `~(..)`, `And`/`Or` parenthesised with infix `&&` / `||`. -/
def Expr.print : Expr → String
  | .word w => w
  | .not inner => "~(" ++ inner.print ++ ")"
  | .and l r => "(" ++ l.print ++ " && " ++ r.print ++ ")"
  | .or l r => "(" ++ l.print ++ " || " ++ r.print ++ ")"

/- ----------------------------------------------------------------
Section: query executor (src/workers/api/src/lexer/lexer.rs, scoring.rs)
and the search handler (src/workers/api/src/http/search.rs)
---------------------------------------------------------------- -/

/-- NaN-propagating `f64` addition. -/
def f64_add : Score → Score → Score
  | some a, some b => some (a + b)
  | _, _ => none

/-- NaN-propagating `f64` division by a count (`0/0` is NaN). -/
def f64_div_nat (a : Score) (n : Nat) : Score :=
  match a with
  | some x => if n = 0 then none else some (x / n)
  | none => none

/-- Source `scoring.rs::score_collective_keywords`: one match keeps its own
score, otherwise the arithmetic mean. -/
def score_collective_keywords (data : List (String × Score)) : Score :=
  if data.length = 1 then ((data.head?).map (fun p => p.2)).getD none
  else f64_div_nat (data.foldl (fun acc p => f64_add acc p.2) (some 0)) data.length

/-- The executor's `HashMap<doc_id, Vec<(keyword, score)>>`, as an
association list in insertion order (the Rust iteration order over a
`HashMap` is arbitrary; no claim depends on it). -/
abbrev DocMap := List (String × List (String × Score))

/-- `HashMap::contains_key`. -/
def contains_key (m : DocMap) (k : String) : Bool :=
  m.any (fun p => p.1 == k)

/-- `map.get(doc_id).unwrap()` in the `And` branch (the entry is present
because the branch filtered on `contains_key` first). -/
def lookup_kws (m : DocMap) (k : String) : List (String × Score) :=
  ((m.find? (fun p => p.1 == k)).map (fun p => p.2)).getD []

/-- The keyword-merging loop of the `And` branch: push entries of the right
operand whose keyword is not yet present (checked against the growing
list). -/
def merge_kw_lists (kws rkws : List (String × Score)) : List (String × Score) :=
  rkws.foldl (fun acc p => if acc.any (fun q => q.1 == p.1) then acc else acc ++ [p]) kws

/-- `HashMap` insertion: replace the value if the key exists, else append. -/
def hm_insert (m : DocMap) (k : String) (v : List (String × Score)) : DocMap :=
  if m.any (fun p => p.1 == k) then
    m.map (fun p => if p.1 == k then (p.1, v) else p)
  else m ++ [(k, v)]

/-- `collect::<HashMap<..>>()` over key-value pairs. -/
def hm_from_list (l : List (String × List (String × Score))) : DocMap :=
  l.foldl (fun m p => hm_insert m p.1 p.2) []

/-- Source `QueryLexer::set_merge`: merge `from_` into `into`; on a key
collision extend the existing keyword list with the incoming keywords not
already present (`to_add` is computed against the unmodified existing
list). -/
def set_merge (into from_ : DocMap) : DocMap :=
  from_.foldl (fun acc p =>
    match acc.find? (fun q => q.1 == p.1) with
    | some existing =>
      let to_add := p.2.filter (fun kv => !(existing.2.any (fun q => q.1 == kv.1)))
      acc.map (fun q => if q.1 == p.1 then (q.1, q.2 ++ to_add) else q)
    | none => acc ++ [p]) into

/-- Source `QueryLexer::filter_documents_on_query`.  The first component is
the value the Rust method returns, the second is `self.result` after the
call (the method assigns the same map to `self.result` in every branch —
`fdq_fst_eq_snd` below).  `cache` is `self.kw_cache`, preloaded with the
merged postings of every keyword occurring in the query (`kw_cache.get(..)
.unwrap()` cannot miss because `preload_keyword_data` covers exactly the
collected keywords). -/
def fdq (cache : String → List (String × Score)) : Expr → DocMap → DocMap × DocMap
  | .word w, _res =>
    let to_add := hm_from_list ((cache w).map (fun p => (p.1, [(w, p.2)])))
    (to_add, to_add)
  | .not inner, res =>
    let inner_res := fdq cache inner res
    let negated := inner_res.2.filter (fun p => !(contains_key inner_res.1 p.1))
    (negated, negated)
  | .and l r, res =>
    let lres := fdq cache l res
    let rres := fdq cache r lres.2
    let and_result := (lres.1.filter (fun p => contains_key rres.1 p.1)).map
      (fun p => (p.1, merge_kw_lists p.2 (lookup_kws rres.1 p.1)))
    (and_result, and_result)
  | .or l r, res =>
    let lres := fdq cache l res
    let rres := fdq cache r lres.2
    let merged := set_merge lres.1 rres.1
    (merged, merged)

/-- Source `http/search.rs::SearchResultRow`. -/
structure SearchResultRow where
  doc_id : String
  score : Score
  keywords : List (String × Score)
  body : Option String
deriving DecidableEq

namespace QueryLexer

/-- Source `QueryLexer::query`: clear the state, run
`filter_documents_on_query` on the AST, and map the resulting doc map to
result rows (no body yet).  The preload phase is abstracted by `cache`. -/
def query (cache : String → List (String × Score)) (ast : Expr) : List SearchResultRow :=
  (fdq cache ast []).1.map (fun p =>
    { doc_id := p.1
      score := score_collective_keywords p.2
      keywords := p.2
      body := none })

/-- Source `QueryLexer::from_str`: tokenization errors propagate with `?`,
but `StringTokenizer::parse(tokens).unwrap()` panics (`none`) when the
parse fails. -/
def from_str (q : String) : Option (Except QueryError Expr) :=
  match StringTokenizer.tokenize q with
  | .error e => some (.error e)
  | .ok tokens =>
    match StringTokenizer.parse tokens with
    | none => none
    | some ast => some (.ok ast)

end QueryLexer

/-- Outcome of the query-parsing prologue of `handle_search`. -/
inductive ParseOutcome
  | response400
  | panicked
  | proceeds (ast : Expr)
deriving DecidableEq

/-- Source `http/search.rs::handle_search`, parse stage: when
`QueryLexer::from_str` returns an error the handler answers
`400 {error: "Failed to parse query"}`; when it panics the request dies
with an uncaught exception instead. -/
def handle_search_parse (q : String) : ParseOutcome :=
  match QueryLexer.from_str q with
  | none => .panicked
  | some (.error _) => .response400
  | some (.ok ast) => .proceeds ast

/-- The `document_count` field of the search response:
`documents.len() as u32` (result sets never approach `2^32`). -/
def search_document_count (cache : String → List (String × Score)) (ast : Expr) : Nat :=
  (QueryLexer.query cache ast).length % 4294967296

/-- Source `http/search.rs::handle_search`, `full=true` enrichment: map each
result row to its document key, bulk-read, then copy `document_body` into
each row by index (`full_doc_bodies[i]` panics — `none` — if fewer documents
than rows came back). -/
def handle_search_full (n_shards : Nat) (store : KvStore)
    (dser : List Nat → Option Document) (index : String)
    (documents : List SearchResultRow) : Option (List SearchResultRow) :=
  let doc_kv_keys := documents.map (fun r => document_kv_key index r.doc_id)
  match BulkReader.get_documents_kv_keys n_shards store dser doc_kv_keys with
  | none => none
  | some full_doc_bodies =>
    if documents.length ≤ full_doc_bodies.length then
      some ((documents.zip full_doc_bodies).map
        (fun p => { p.1 with body := p.2.document_body }))
    else none

/- ----------------------------------------------------------------
Section: concrete instances used by witnesses and counterexamples
---------------------------------------------------------------- -/

/-- Decidable equality for `Except`, needed to evaluate tokenizer results. -/
instance {ε α : Type _} [DecidableEq ε] [DecidableEq α] : DecidableEq (Except ε α) :=
  fun x y =>
    match x, y with
    | .ok a, .ok b => decidable_of_iff (a = b) (by simp)
    | .error a, .error b => decidable_of_iff (a = b) (by simp)
    | .ok _, .error _ => isFalse (by simp)
    | .error _, .ok _ => isFalse (by simp)

/-- A store holding bytes only at key `k1` (`x` = byte 120). -/
def c2_store : KvStore := fun k => if k = "k1" then some [120] else none

/-- A one-page listing of a single shard key. -/
def c4w_lister : Lister := fun _ _ => ⟨["i:kw:w:0"], true, none⟩

/-- Bytes for the single shard key of `c4w_lister`. -/
def c4w_store : KvStore := fun k => if k = "i:kw:w:0" then some [0] else none

/-- Decoder for `c4w_store`: byte `[0]` is the shard holding `d1`. -/
def c4w_dser : List Nat → Option KeywordShardData :=
  fun b => if b = [0] then some ⟨"i", "w", 0, 0, [("d1", some 1)]⟩ else none

/-- A two-page listing: shard key 0 on the first page (with a continuation
cursor), shard key 1 on the second. -/
def c4c_lister : Lister := fun _ cur =>
  match cur with
  | none => ⟨["i:kw:w:0"], false, some 1⟩
  | some _ => ⟨["i:kw:w:1"], true, none⟩

/-- Bytes for the two shard keys of `c4c_lister`. -/
def c4c_store : KvStore :=
  fun k => if k = "i:kw:w:0" then some [0]
    else if k = "i:kw:w:1" then some [1] else none

/-- Decoder for `c4c_store`: shard 0 holds `d1`, shard 1 holds `d2`. -/
def c4c_dser : List Nat → Option KeywordShardData :=
  fun b => if b = [0] then some ⟨"i", "w", 0, 10, [("d1", some 1)]⟩
    else if b = [1] then some ⟨"i", "w", 1, 10, [("d2", some 2)]⟩ else none

/-- A shard that already holds document `d` with score 0. -/
def c7_shard : KeywordShardData := ⟨"i", "k", 0, 0, [("d", some 0)]⟩

/-- A document sitting at revision `u32::MAX` with a language already set. -/
def c9_doc : Document := ⟨"d", "i", 4294967295, some "en", none, none⟩

/-- Entity stores with no entries. -/
def empty_stores : Stores := ⟨fun _ => none, fun _ => none⟩

/-- A single search result row for document `d`. -/
def c10_row : SearchResultRow := ⟨"d", some 1, [("w", some 1)], none⟩

/- ----------------------------------------------------------------
Theorems.  First general lemmas about the embedded operations, then one
theorem per claim (with witnesses and counterexamples where required).
---------------------------------------------------------------- -/

theorem frame_all_go (xs : List (List Nat)) (acc : List Nat) :
    xs.foldl (fun out d => length_prefix_data d out) acc
      = acc ++ (xs.map (fun d => u32_to_le_bytes (d.length % 4294967296) ++ d)).flatten := by
  induction xs generalizing acc with
  | nil => simp
  | cons x xs ih =>
    rw [List.foldl_cons, ih]
    simp [length_prefix_data, List.append_assoc]

theorem frame_all_flat (xs : List (List Nat)) :
    frame_all xs
      = (xs.map (fun d => u32_to_le_bytes (d.length % 4294967296) ++ d)).flatten := by
  simpa using frame_all_go xs []

theorem u32_le_round (n : Nat) :
    u32_from_le_bytes (n % 256) (n / 256 % 256) (n / 65536 % 256) (n / 16777216 % 256)
      = n % 4294967296 := by
  unfold u32_from_le_bytes
  omega

theorem read_one_frame (x rest : List Nat) (h : x.length < 4294967296) :
    read_one_length_prefixed (u32_to_le_bytes (x.length % 4294967296) ++ (x ++ rest))
      = some x := by
  have hm : x.length % 4294967296 = x.length := Nat.mod_eq_of_lt h
  simp only [u32_to_le_bytes, hm, List.cons_append, List.nil_append,
    read_one_length_prefixed]
  rw [u32_le_round, hm, if_neg (by simp only [List.length_append]; omega),
    List.take_left]

theorem read_lp_cons (x rest : List Nat) (h : x.length < 4294967296) :
    read_length_prefixed (u32_to_le_bytes (x.length % 4294967296) ++ (x ++ rest))
      = (read_length_prefixed rest).map (fun r => x :: r) := by
  have hne : u32_to_le_bytes (x.length % 4294967296) ++ (x ++ rest) ≠ [] := by
    simp [u32_to_le_bytes]
  have hdrop : (u32_to_le_bytes (x.length % 4294967296) ++ (x ++ rest)).drop (4 + x.length)
      = rest := by
    rw [show u32_to_le_bytes (x.length % 4294967296) ++ (x ++ rest)
        = (u32_to_le_bytes (x.length % 4294967296) ++ x) ++ rest by
      simp [List.append_assoc]]
    exact List.drop_left' (by simp [u32_to_le_bytes, List.length_append]; omega)
  conv_lhs => rw [read_length_prefixed.eq_def]
  rw [dif_neg hne, read_one_frame x rest h]
  show (read_length_prefixed
      ((u32_to_le_bytes (x.length % 4294967296) ++ (x ++ rest)).drop (4 + x.length))).map
      (fun r => x :: r)
    = (read_length_prefixed rest).map (fun r => x :: r)
  rw [hdrop]

theorem read_frames_of_bounded (xs : List (List Nat)) :
    (∀ x ∈ xs, x.length < 4294967296) →
    read_length_prefixed
        ((xs.map (fun d => u32_to_le_bytes (d.length % 4294967296) ++ d)).flatten)
      = some xs := by
  induction xs with
  | nil =>
    intro _
    rw [read_length_prefixed.eq_def]
    simp
  | cons x xs ih =>
    intro h
    simp only [List.map_cons, List.flatten_cons, List.append_assoc]
    rw [read_lp_cons x _ (h x (List.mem_cons_self _ _)),
      ih (fun y hy => h y (List.mem_cons_of_mem _ hy))]
    rfl

/-- C1.  Framing round-trip: decoding the concatenation of the little-endian
u32 length-prefixed encodings of a payload sequence (as built by
`length_prefix_data`, read back by `read_length_prefixed`) yields exactly
the original sequence, in order and with multiplicity, including zero-length
payloads.  The hypothesis bounds each payload by `2^32` bytes, which on the
wasm32 target every `Vec<u8>` satisfies. -/
theorem c1_framing_round_trip (xs : List (List Nat))
    (h : ∀ x ∈ xs, x.length < 4294967296) :
    read_length_prefixed (frame_all xs) = some xs := by
  rw [frame_all_flat]
  exact read_frames_of_bounded xs h

/-- Witness for C1 at a concrete payload list including an empty payload
and payloads of distinct lengths. -/
theorem c1_framing_round_trip_witness :
    (∀ x ∈ [[49], ([] : List Nat), [2, 3]], x.length < 4294967296) ∧
      read_length_prefixed (frame_all [[49], [], [2, 3]]) = some [[49], [], [2, 3]] :=
  ⟨by decide, c1_framing_round_trip _ (by decide)⟩

/-- C2.  At the durable reader, a requested keyword key that is missing from
the KV store is dropped from the bulk result (`filter_map`) instead of
yielding an empty payload in place, so the framed response has fewer
payloads than requested keys; on the documents path a missing key makes the
per-key `.unwrap()` panic.  Here `k2` is absent from `c2_store`. -/
theorem c2_missing_key_not_empty_payload :
    DurableReader.get_keywords c2_store ["k1", "k2"] = [[120]] ∧
    (DurableReader.get_keywords c2_store ["k1", "k2"]).length ≠ ["k1", "k2"].length ∧
    DurableReader.handle_keywords 48 c2_store ["k1", "k2"]
      = some (DurableResponse.ok (frame_all [[120]])) ∧
    DurableReader.get_documents c2_store ["k1", "k2"] = none := by
  refine ⟨?_, ?_, ?_, ?_⟩ <;> decide

set_option maxRecDepth 8192 in
/-- C3.  The bulk reader chunks document reads at the literal 1000 (not
`document_limit = 990`), and the durable actor's `/documents` endpoint
enforces `keyword_limit = 1000 / N_SHARDS` (20 at the default 48 shards), so
the single chunk dispatched for 990 document keys is rejected with a 400
instead of being within the limit the actor accepts. -/
theorem c3_document_chunking_exceeds_actor_limit :
    BulkReader.chunk_size "/documents" 48 = some 1000 ∧
    get_document_limit = 990 ∧
    list_chunks 1000 (List.replicate 990 "k") = [List.replicate 990 "k"] ∧
    get_keyword_limit 48 = 20 ∧
    (∃ msg, DurableReader.handle_documents 48 (fun _ => none) (List.replicate 990 "k")
        = some (DurableResponse.err msg 400)) := by
  refine ⟨by decide, by decide, by decide, by decide, ⟨_, rfl⟩⟩

/-- C5.  A query that tokenizes but fails to parse (here `"a" &&`, whose
right operand is missing) makes `QueryLexer::from_str` panic on
`parse(tokens).unwrap()` instead of returning the 400
`{error: "Failed to parse query"}` response; only tokenizer errors (second
conjunct, bare `a`) reach that 400. -/
theorem c5_parse_failure_outcome :
    handle_search_parse "\"a\" &&" = ParseOutcome.panicked ∧
    handle_search_parse "a" = ParseOutcome.response400 := by
  constructor <;> decide

/-- C8 counterexample.  The claim's query string `(a && b) || ~(c)` does not
even tokenize (bare words are invalid; words must be quoted), and printing
the claimed AST yields `((a && b) || ~(c))` — with an outer parenthesis —
not the claimed string. -/
theorem c8_counterexample :
    StringTokenizer.tokenize "(a && b) || ~(c)"
      = Except.error (QueryError.invalidToken 'a') ∧
    Expr.print (Expr.or (Expr.and (Expr.word "a") (Expr.word "b"))
        (Expr.not (Expr.word "c")))
      = "((a && b) || ~(c))" ∧
    "((a && b) || ~(c))" ≠ "(a && b) || ~(c)" := by
  refine ⟨?_, ?_, ?_⟩ <;> decide

/-- C8 (amended).  Parsing the quoted form `("a" && "b") || ~("c")` yields
the AST `Or(And(Word a, Word b), Not(Word c))`, and printing that AST
yields `((a && b) || ~(c))`. -/
theorem c8_round_trip_amended :
    QueryLexer.from_str "(\"a\" && \"b\") || ~(\"c\")"
      = some (Except.ok (Expr.or (Expr.and (Expr.word "a") (Expr.word "b"))
          (Expr.not (Expr.word "c")))) ∧
    Expr.print (Expr.or (Expr.and (Expr.word "a") (Expr.word "b"))
        (Expr.not (Expr.word "c")))
      = "((a && b) || ~(c))" := by
  constructor <;> decide

/-- C7 counterexample.  On a shard that already holds `("d", 0)`, the
sequence `add(d, 1); add(d, 2)` leaves the original entry untouched, so the
retained score is the pre-existing 0, not the claimed first-added score 1:
the claim fails for shard states already containing `d`. -/
theorem c7_counterexample :
    ((c7_shard.add_document "d" (some 1) 1).1.add_document "d" (some 2) 2).1.docs
      = [("d", some 0)] ∧
    ¬ ((((c7_shard.add_document "d" (some 1) 1).1.add_document "d" (some 2) 2).1.docs.filter
        (fun p => p.1 == "d")).map (fun p => p.2) = [some 1]) := by
  constructor <;> decide

theorem fdq_fst_eq_snd (cache : String → List (String × Score)) (e : Expr) (res : DocMap) :
    (fdq cache e res).1 = (fdq cache e res).2 := by
  cases e <;> rfl

theorem fdq_not_nil (cache : String → List (String × Score)) (e : Expr) (res : DocMap) :
    (fdq cache (Expr.not e) res).1 = [] := by
  show ((fdq cache e res).2.filter (fun p => !(contains_key (fdq cache e res).1 p.1))) = []
  rw [← fdq_fst_eq_snd]
  refine List.filter_eq_nil_iff.mpr ?_
  intro p hp
  simp only [contains_key, List.any_eq_true, Bool.not_eq_true', Bool.not_eq_true,
    Bool.not_eq_false]
  exact ⟨p, hp, by simp⟩

/-- C6.  A query whose AST root is `Not` evaluates to the empty result map:
the branch filters the running `self.result` — which the inner evaluation
has just replaced with its own matches — against those same matches, so
nothing survives; the search response therefore reports `document_count`
0. -/
theorem c6_top_level_not_empty (cache : String → List (String × Score)) (e : Expr) :
    QueryLexer.query cache (Expr.not e) = [] ∧
      search_document_count cache (Expr.not e) = 0 := by
  have h : (fdq cache (Expr.not e) []).1 = [] := fdq_not_nil cache e []
  constructor
  · unfold QueryLexer.query
    rw [h]
    rfl
  · unfold search_document_count QueryLexer.query
    rw [h]
    rfl

/-- C7 (amended).  On a shard whose `docs` list does not yet contain `d`,
`add(d, s1); add(d, s2)` leaves exactly one entry for `d` with the
first-written score `s1`, the second add performs no write, and a doc-id
that occurred at most once before still occurs at most once. -/
theorem c7_add_idempotent_amended (s : KeywordShardData) (d : String) (s1 s2 : Score)
    (t1 t2 : Nat) (h : ∀ p ∈ s.docs, p.1 ≠ d) :
    (((s.add_document d s1 t1).1.add_document d s2 t2).1.docs.filter (fun p => p.1 == d)
        = [(d, s1)]) ∧
    ((s.add_document d s1 t1).1.add_document d s2 t2).2 = false ∧
    (∀ x : String, s.docs.countP (fun p => p.1 == x) ≤ 1 →
      (((s.add_document d s1 t1).1.add_document d s2 t2).1.docs.countP
        (fun p => p.1 == x)) ≤ 1) := by
  have hany : (s.docs.any (fun p => p.1 == d)) = false := by
    rw [List.any_eq_false]
    intro p hp
    simpa using h p hp
  have h1 : s.add_document d s1 t1
      = ({ s with docs := s.docs ++ [(d, s1)], ts := t1 }, true) := by
    simp [KeywordShardData.add_document, hany]
  have hany2 : (({ s with docs := s.docs ++ [(d, s1)], ts := t1 } :
      KeywordShardData).docs.any (fun p => p.1 == d)) = true := by
    simp
  have h2 : ({ s with docs := s.docs ++ [(d, s1)], ts := t1 } :
      KeywordShardData).add_document d s2 t2
      = ({ s with docs := s.docs ++ [(d, s1)], ts := t1 }, false) := by
    simp [KeywordShardData.add_document, hany2]
  rw [h1]
  simp only [h2]
  have hfilter : s.docs.filter (fun p => p.1 == d) = [] := by
    refine List.filter_eq_nil_iff.mpr ?_
    intro p hp
    simpa using h p hp
  refine ⟨?_, by trivial, ?_⟩
  · simp [List.filter_append, hfilter]
  · intro x hx
    rw [List.countP_append]
    by_cases hxd : d = x
    · have : s.docs.countP (fun p => p.1 == x) = 0 := by
        rw [List.countP_eq_zero]
        intro p hp
        simpa [← hxd] using h p hp
      simp [this, hxd]
    · have : ([(d, s1)] : List (String × Score)).countP (fun p => p.1 == x) = 0 := by
        simp [hxd]
      rw [this]
      simpa using hx

/-- Witness for C7 at the empty shard. -/
theorem c7_add_idempotent_witness :
    (∀ p ∈ (⟨"i", "k", 0, 0, []⟩ : KeywordShardData).docs, p.1 ≠ "d") ∧
    ((((⟨"i", "k", 0, 0, []⟩ : KeywordShardData).add_document "d" (some 1) 1).1.add_document
        "d" (some 2) 2).1.docs.filter (fun p => p.1 == "d") = [("d", some 1)]) :=
  ⟨by decide,
    (c7_add_idempotent_amended ⟨"i", "k", 0, 0, []⟩ "d" (some 1) (some 2) 1 2 (by decide)).1⟩

theorem ordered_insert_perm (le : α → α → Bool) (a : α) (l : List α) :
    (ordered_insert le a l).Perm (a :: l) := by
  induction l with
  | nil => exact List.Perm.refl _
  | cons b l ih =>
    simp only [ordered_insert]
    by_cases h : le a b = true
    · rw [if_pos h]
    · rw [if_neg h]
      exact (List.Perm.cons b ih).trans (List.Perm.swap a b l)

theorem insertion_sort_perm (le : α → α → Bool) (l : List α) :
    (insertion_sort le l).Perm l := by
  induction l with
  | nil => exact List.Perm.refl _
  | cons a l ih => exact (ordered_insert_perm le a _).trans (List.Perm.cons a ih)

theorem pairwise_ordered_insert {P : α → Prop} (le : α → α → Bool)
    (htot : ∀ x y, P x → P y → le x y = true ∨ le y x = true)
    (htr : ∀ x y z, P x → P y → P z → le x y = true → le y z = true → le x z = true)
    (a : α) (ha : P a) :
    ∀ l : List α, (∀ b ∈ l, P b) → l.Pairwise (fun x y => le x y = true) →
      (ordered_insert le a l).Pairwise (fun x y => le x y = true) := by
  intro l
  induction l with
  | nil =>
    intro _ _
    simp [ordered_insert]
  | cons b l ih =>
    intro hl hp
    rcases List.pairwise_cons.mp hp with ⟨hb, hp'⟩
    simp only [ordered_insert]
    by_cases hab : le a b = true
    · rw [if_pos hab]
      refine List.pairwise_cons.mpr ⟨?_, List.pairwise_cons.mpr ⟨hb, hp'⟩⟩
      intro y hy
      rcases List.mem_cons.mp hy with hyb | hy'
      · exact hyb ▸ hab
      · exact htr a b y ha (hl b (List.mem_cons_self _ _))
          (hl y (List.mem_cons_of_mem _ hy')) hab (hb y hy')
    · rw [if_neg hab]
      refine List.pairwise_cons.mpr ⟨?_, ?_⟩
      · intro y hy
        rcases List.mem_cons.mp ((ordered_insert_perm le a l).mem_iff.mp hy) with hya | hy'
        · rcases htot a b ha (hl b (List.mem_cons_self _ _)) with h1 | h1
          · exact absurd h1 hab
          · exact hya ▸ h1
        · exact hb y hy'
      · exact ih (fun x hx => hl x (List.mem_cons_of_mem _ hx)) hp'

theorem pairwise_insertion_sort {P : α → Prop} (le : α → α → Bool)
    (htot : ∀ x y, P x → P y → le x y = true ∨ le y x = true)
    (htr : ∀ x y z, P x → P y → P z → le x y = true → le y z = true → le x z = true) :
    ∀ l : List α, (∀ b ∈ l, P b) →
      (insertion_sort le l).Pairwise (fun x y => le x y = true) := by
  intro l
  induction l with
  | nil =>
    intro _
    simp [insertion_sort]
  | cons a l ih =>
    intro hl
    refine pairwise_ordered_insert le htot htr a (hl a (List.mem_cons_self _ _)) _ ?_
      (ih (fun b hb => hl b (List.mem_cons_of_mem _ hb)))
    intro b hb
    exact hl b (List.mem_cons_of_mem _ ((insertion_sort_perm le l).mem_iff.mp hb))

theorem rat_cmp_eq_gt_iff (a b : ℚ) : rat_cmp a b = Ordering.gt ↔ b < a := by
  unfold rat_cmp
  split_ifs with h1 h2
  · exact iff_of_false (by simp) (lt_asymm h1)
  · exact iff_of_false (by simp) (by simp [h2])
  · exact iff_of_true rfl (lt_of_le_of_ne (le_of_not_lt h1) (fun hba => h2 hba.symm))

theorem cmp_le_some {a b : String × Score} {p q : ℚ} (hp : a.2 = some p) (hq : b.2 = some q) :
    (cmp_le score_cmp_desc a b = true) ↔ q ≤ p := by
  unfold cmp_le score_cmp_desc
  simp only [hp, hq, f64_pcmp, Option.getD_some]
  unfold rat_cmp
  split_ifs with h1 h2
  · simp [le_of_lt h1]
    rfl
  · simp [le_of_eq h2]
    rfl
  · have hpq : p < q := lt_of_le_of_ne (le_of_not_lt h1) (fun hba => h2 hba.symm)
    simp [not_le.mpr hpq]
    rfl

theorem cmp_le_total (a b : String × Score) :
    cmp_le score_cmp_desc a b = true ∨ cmp_le score_cmp_desc b a = true := by
  cases ha : a.2 with
  | none =>
    left
    cases hb : b.2 <;> simp [cmp_le, score_cmp_desc, f64_pcmp, hb, ha] <;> rfl
  | some p =>
    cases hb : b.2 with
    | none =>
      left
      simp [cmp_le, score_cmp_desc, f64_pcmp, hb]
      rfl
    | some q =>
      rcases le_total q p with h | h
      · exact Or.inl ((cmp_le_some ha hb).mpr h)
      · exact Or.inr ((cmp_le_some hb ha).mpr h)

theorem cmp_le_trans_of_some {a b c : String × Score}
    (hpa : a.2.isSome = true) (hpb : b.2.isSome = true) (hpc : c.2.isSome = true)
    (h1 : cmp_le score_cmp_desc a b = true) (h2 : cmp_le score_cmp_desc b c = true) :
    cmp_le score_cmp_desc a c = true := by
  obtain ⟨p, hp⟩ := Option.isSome_iff_exists.mp hpa
  obtain ⟨q, hq⟩ := Option.isSome_iff_exists.mp hpb
  obtain ⟨w, hw⟩ := Option.isSome_iff_exists.mp hpc
  exact (cmp_le_some hp hw).mpr
    (le_trans ((cmp_le_some hq hw).mp h2) ((cmp_le_some hp hq).mp h1))

theorem option_traverse_eq_some_filterMap {α β : Type _} (f : α → Option β) :
    ∀ l : List α, (∀ a ∈ l, (f a).isSome) → option_traverse f l = some (l.filterMap f) := by
  intro l
  induction l with
  | nil =>
    intro _
    rfl
  | cons a l ih =>
    intro h
    obtain ⟨b, hb⟩ := Option.isSome_iff_exists.mp (h a (List.mem_cons_self _ _))
    simp [option_traverse, hb, ih (fun x hx => h x (List.mem_cons_of_mem _ hx)),
      List.filterMap_cons]

theorem option_traverse_eq_none {α β : Type _} (f : α → Option β) {a : α} :
    ∀ l : List α, a ∈ l → f a = none → option_traverse f l = none := by
  intro l
  induction l with
  | nil =>
    intro ha _
    exact absurd ha (List.not_mem_nil a)
  | cons b l ih =>
    intro ha hfa
    rcases List.mem_cons.mp ha with hab | ha'
    · rw [hab] at hfa
      simp [option_traverse, hfa]
    · cases hfb : f b
      · simp [option_traverse, hfb]
      · simp [option_traverse, hfb, ih ha' hfa]

theorem filterMap_length_of_isSome {α β : Type _} (f : α → Option β) :
    ∀ l : List α, (∀ a ∈ l, (f a).isSome) → (l.filterMap f).length = l.length := by
  intro l
  induction l with
  | nil =>
    intro _
    rfl
  | cons a l ih =>
    intro h
    obtain ⟨b, hb⟩ := Option.isSome_iff_exists.mp (h a (List.mem_cons_self _ _))
    simp [List.filterMap_cons, hb, ih (fun x hx => h x (List.mem_cons_of_mem _ hx))]

theorem intercalate_go_data (sep : String) :
    ∀ (as : List String) (acc : String),
      (String.intercalate.go acc sep as).data
        = acc.data ++ (as.map (fun a => sep.data ++ a.data)).flatten := by
  intro as
  induction as with
  | nil =>
    intro acc
    simp [String.intercalate.go]
  | cons a as ih =>
    intro acc
    simp only [String.intercalate.go, List.map_cons, List.flatten_cons]
    rw [ih]
    simp [List.append_assoc]

theorem intercalate_commas_data (a : String) (as : List String) :
    (String.intercalate "," (a :: as)).data
      = a.data ++ ((as.map String.data).map (fun w => ',' :: w)).flatten := by
  show (String.intercalate.go a "," as).data = _
  rw [intercalate_go_data]
  congr 1
  rw [List.map_map]
  exact congrArg List.flatten (List.map_congr_left (fun x _ => rfl))

theorem split_commas_sep :
    ∀ (w : List Char), ',' ∉ w → ∀ rest : List Char,
      split_commas (w ++ ',' :: rest) = w :: split_commas rest := by
  intro w
  induction w with
  | nil =>
    intro _ rest
    simp [split_commas]
  | cons c w ih =>
    intro hmem rest
    have hc : ¬ c = ',' := fun h => hmem (by subst h; exact List.mem_cons_self _ _)
    have hw : ',' ∉ w := fun h => hmem (List.mem_cons_of_mem _ h)
    simp only [List.cons_append, split_commas, if_neg hc, List.append_eq]
    rw [ih hw rest]

theorem split_commas_of_not_mem :
    ∀ (w : List Char), ',' ∉ w → split_commas w = [w] := by
  intro w
  induction w with
  | nil =>
    intro _
    rfl
  | cons c w ih =>
    intro hmem
    have hc : ¬ c = ',' := fun h => hmem (by subst h; exact List.mem_cons_self _ _)
    have hw : ',' ∉ w := fun h => hmem (List.mem_cons_of_mem _ h)
    simp only [split_commas, if_neg hc]
    rw [ih hw]

theorem split_commas_chunks :
    ∀ ks : List (List Char), (∀ k ∈ ks, ',' ∉ k) →
      ∀ a : List Char, ',' ∉ a →
      split_commas (a ++ (ks.map (fun w => ',' :: w)).flatten) = a :: ks := by
  intro ks
  induction ks with
  | nil =>
    intro _ a ha
    simpa using split_commas_of_not_mem a ha
  | cons k ks ih =>
    intro hks a ha
    have h1 : a ++ ((k :: ks).map (fun w => ',' :: w)).flatten
        = a ++ ',' :: (k ++ (ks.map (fun w => ',' :: w)).flatten) := by
      simp
    rw [h1, split_commas_sep a ha]
    rw [ih (fun x hx => hks x (List.mem_cons_of_mem _ hx)) k (hks k (List.mem_cons_self _ _))]

theorem string_mk_data (s : String) : String.mk s.data = s := rfl

theorem parse_body_intercalate (chunk : List String) (hne : chunk ≠ [])
    (hcomma : ∀ k ∈ chunk, ',' ∉ k.data)
    (hblank : ∀ k ∈ chunk, k.data.all (fun c => c.isWhitespace) = false) :
    parse_body (String.intercalate "," chunk) = chunk := by
  cases chunk with
  | nil => exact absurd rfl hne
  | cons a as =>
    unfold parse_body
    rw [intercalate_commas_data]
    rw [split_commas_chunks (as.map String.data)
      (fun w hw => by
        obtain ⟨k, hk, hkw⟩ := List.mem_map.mp hw
        rw [← hkw]
        exact hcomma k (List.mem_cons_of_mem _ hk))
      a.data (hcomma a (List.mem_cons_self _ _))]
    have hmap : ((a.data :: as.map String.data).map (fun w => String.mk w)) = a :: as := by
      simp only [List.map_cons, List.map_map, string_mk_data]
      rw [show as.map ((fun w => String.mk w) ∘ String.data) = as.map id from
        List.map_congr_left (fun x _ => string_mk_data x), List.map_id]
    rw [hmap]
    apply List.filter_eq_self.mpr
    intro k hk
    have := hblank k hk
    simp [this]

theorem handle_keywords_ok (n_shards : Nat) (store : KvStore) (entries : List String)
    (hlen : entries.length ≤ get_keyword_limit n_shards) (hne : entries ≠ []) :
    DurableReader.handle_keywords n_shards store entries
      = some (DurableResponse.ok (frame_all (DurableReader.get_keywords store entries))) := by
  unfold DurableReader.handle_keywords
  rw [if_neg (by omega)]
  rw [if_neg (by simp [List.isEmpty_iff, hne])]

theorem chunks_go_flatten (k : Nat) :
    ∀ (fuel : Nat) (l : List α), l.length ≤ fuel → (chunks_go k fuel l).flatten = l := by
  intro fuel
  induction fuel with
  | zero =>
    intro l hl
    cases l with
    | nil => rfl
    | cons a l => simp at hl
  | succ fuel ih =>
    intro l hl
    cases l with
    | nil => rfl
    | cons a l =>
      simp only [chunks_go, List.flatten_cons]
      rw [ih (l.drop k) (by simp only [List.length_drop]; simp at hl; omega)]
      simp [List.take_append_drop]

theorem chunks_go_mem (k : Nat) :
    ∀ (fuel : Nat) (l c : List α), c ∈ chunks_go k fuel l → c.length ≤ k + 1 ∧ c ≠ [] := by
  intro fuel
  induction fuel with
  | zero =>
    intro l c hc
    cases l with
    | nil => simp [chunks_go] at hc
    | cons a l => simp [chunks_go] at hc
  | succ fuel ih =>
    intro l c hc
    cases l with
    | nil => simp [chunks_go] at hc
    | cons a l =>
      simp only [chunks_go, List.mem_cons] at hc
      rcases hc with hc | hc
      · subst hc
        refine ⟨?_, by simp⟩
        simp only [List.length_cons, List.length_take]
        omega
      · exact ih (l.drop k) c hc

theorem list_chunks_flatten {α : Type _} (k : Nat) (hk : 0 < k) (l : List α) :
    (list_chunks k l).flatten = l := by
  cases k with
  | zero => exact absurd hk (by simp)
  | succ k' => exact chunks_go_flatten k' l.length l (Nat.le_refl _)

theorem list_chunks_mem {α : Type _} (k : Nat) (l c : List α) (hk : 0 < k)
    (hc : c ∈ list_chunks k l) :
    c.length ≤ k ∧ c ≠ [] ∧ ∀ x ∈ c, x ∈ l := by
  cases k with
  | zero => exact absurd hk (by simp)
  | succ k' =>
    obtain ⟨h1, h2⟩ := chunks_go_mem k' l.length l c hc
    refine ⟨h1, h2, ?_⟩
    intro x hx
    have hx' : x ∈ (list_chunks (k' + 1) l).flatten :=
      List.mem_flatten.mpr ⟨c, hc, hx⟩
    rwa [list_chunks_flatten (k' + 1) (Nat.succ_pos _) l] at hx'

theorem option_traverse_eq_some_map {α β : Type _} {f : α → Option β} {g : α → β} :
    ∀ l : List α, (∀ a ∈ l, f a = some (g a)) → option_traverse f l = some (l.map g) := by
  intro l
  induction l with
  | nil =>
    intro _
    rfl
  | cons a l ih =>
    intro h
    simp [option_traverse, h a (List.mem_cons_self _ _),
      ih (fun x hx => h x (List.mem_cons_of_mem _ hx))]

theorem option_traverse_map {α β γ : Type _} (f : β → Option γ) (h : α → β) :
    ∀ l : List α, option_traverse f (l.map h) = option_traverse (fun a => f (h a)) l := by
  intro l
  induction l with
  | nil => rfl
  | cons a l ih =>
    cases hfa : f (h a) <;> simp [option_traverse, hfa, ih]

theorem chunked_request_keywords (n_shards : Nat) (store : KvStore) (keys : List String)
    (hlimit : 0 < get_keyword_limit n_shards)
    (hcomma : ∀ k ∈ keys, ',' ∉ k.data)
    (hblank : ∀ k ∈ keys, k.data.all (fun c => c.isWhitespace) = false)
    (hbytes : ∀ k ∈ keys, ((store k).getD []).length < 4294967296) :
    BulkReader.chunked_request n_shards store "/keywords" keys
      = some (keys.filterMap store) := by
  have hchunks := fun c hc =>
    list_chunks_mem (get_keyword_limit n_shards) keys c hlimit hc
  have hresp : option_traverse (fun chunk =>
      DurableReader.fetch n_shards store "/keywords" (String.intercalate "," chunk))
      (list_chunks (get_keyword_limit n_shards) keys)
      = some ((list_chunks (get_keyword_limit n_shards) keys).map
          (fun c => DurableResponse.ok (frame_all (DurableReader.get_keywords store c)))) := by
    apply option_traverse_eq_some_map
    intro c hc
    obtain ⟨hlen, hne, hsub⟩ := hchunks c hc
    unfold DurableReader.fetch
    rw [if_pos rfl]
    rw [parse_body_intercalate c hne (fun k hk => hcomma k (hsub k hk))
      (fun k hk => hblank k (hsub k hk))]
    exact handle_keywords_ok n_shards store c hlen hne
  have hframes : option_traverse (fun resp => read_length_prefixed (response_bytes resp))
      ((list_chunks (get_keyword_limit n_shards) keys).map
        (fun c => DurableResponse.ok (frame_all (DurableReader.get_keywords store c))))
      = some ((list_chunks (get_keyword_limit n_shards) keys).map
          (fun c => DurableReader.get_keywords store c)) := by
    rw [option_traverse_map]
    apply option_traverse_eq_some_map
    intro c hc
    obtain ⟨hlen, hne, hsub⟩ := hchunks c hc
    show read_length_prefixed (frame_all (DurableReader.get_keywords store c)) = some _
    rw [frame_all_flat]
    apply read_frames_of_bounded
    intro x hx
    obtain ⟨k, hk, hsk⟩ := List.mem_filterMap.mp hx
    have hb := hbytes k (hsub k hk)
    rw [hsk] at hb
    simpa using hb
  unfold BulkReader.chunked_request BulkReader.chunk_size
  rw [if_pos rfl]
  simp only [Option.bind_eq_bind, Option.some_bind]
  rw [if_neg (Nat.pos_iff_ne_zero.mp hlimit)]
  rw [hresp]
  simp only [Option.some_bind]
  rw [hframes]
  simp only [Option.some_bind]
  show some (((list_chunks (get_keyword_limit n_shards) keys).map
      (fun c => DurableReader.get_keywords store c)).flatten) = _
  congr 1
  show (((list_chunks (get_keyword_limit n_shards) keys).map
      (fun c => List.filterMap store c)).flatten) = keys.filterMap store
  rw [← List.filterMap_flatten]
  rw [list_chunks_flatten _ hlimit]

theorem get_keyword_kv_keys_all_present (n_shards : Nat) (store : KvStore)
    (dser : List Nat → Option KeywordShardData) (keys : List String)
    (hall : ∀ k ∈ keys, ((store k).bind dser).isSome)
    (hlimit : 0 < get_keyword_limit n_shards)
    (hcomma : ∀ k ∈ keys, ',' ∉ k.data)
    (hblank : ∀ k ∈ keys, k.data.all (fun c => c.isWhitespace) = false)
    (hbytes : ∀ k ∈ keys, ((store k).getD []).length < 4294967296) :
    BulkReader.get_keyword_kv_keys n_shards store dser keys
      = some (keys.filterMap (fun k => (store k).bind dser)) := by
  unfold BulkReader.get_keyword_kv_keys
  by_cases hc : keys.length < get_keyword_limit n_shards
  · rw [if_pos hc]
    exact option_traverse_eq_some_filterMap _ keys hall
  · rw [if_neg hc, chunked_request_keywords n_shards store keys hlimit hcomma hblank hbytes]
    show option_traverse dser (keys.filterMap store) = _
    have hd : ∀ b ∈ keys.filterMap store, (dser b).isSome := by
      intro b hb
      obtain ⟨k, hk, hsk⟩ := List.mem_filterMap.mp hb
      have := hall k hk
      rw [hsk] at this
      simpa using this
    rw [option_traverse_eq_some_filterMap dser _ hd]
    rw [List.filterMap_filterMap]

/-- C4 (amended).  `merge_keyword_shards` lists only the FIRST page of keys
with the shard prefix (the source issues a single `list().execute()` with no
cursor loop); whenever every listed key is present and decodable, the
keyword limit is nonzero (N_SHARDS at most 1000 — `chunks(0)` panics
otherwise), the keys survive the unescaped comma-joined CSV transport (no
comma, not all-whitespace; the spec's own §9 caveat), and stored payloads
fit a u32 length (wasm32), the result — on BOTH the direct-read path and
the chunked durable-actor path — is a permutation of the concatenation of
the listed shards' docs lists, sorted by score descending whenever no score
is NaN (the comparator treats NaN as equal). -/
theorem c4_merge_first_page (lister : Lister) (n_shards : Nat) (store : KvStore)
    (dser : List Nat → Option KeywordShardData) (index keyword : String)
    (hall : ∀ k ∈ (lister (keyword_shard_key_stem index keyword) none).keys,
      ((store k).bind dser).isSome)
    (hlimit : 0 < get_keyword_limit n_shards)
    (hcomma : ∀ k ∈ (lister (keyword_shard_key_stem index keyword) none).keys,
      ',' ∉ k.data)
    (hblank : ∀ k ∈ (lister (keyword_shard_key_stem index keyword) none).keys,
      k.data.all (fun c => c.isWhitespace) = false)
    (hbytes : ∀ k ∈ (lister (keyword_shard_key_stem index keyword) none).keys,
      ((store k).getD []).length < 4294967296) :
    ∃ r, KeywordManager.merge_keyword_shards lister n_shards store dser index keyword
        = some r ∧
      r.Perm ((((lister (keyword_shard_key_stem index keyword) none).keys.filterMap
          (fun k => (store k).bind dser)).map (fun d => d.docs)).flatten) ∧
      ((∀ p ∈ (((lister (keyword_shard_key_stem index keyword) none).keys.filterMap
          (fun k => (store k).bind dser)).map (fun d => d.docs)).flatten,
          (p : String × Score).2.isSome) →
        r.Pairwise (fun a b => cmp_le score_cmp_desc a b = true)) := by
  unfold KeywordManager.merge_keyword_shards
  dsimp only
  rw [get_keyword_kv_keys_all_present n_shards store dser _ hall hlimit hcomma hblank hbytes]
  dsimp only
  rw [if_pos (filterMap_length_of_isSome _ _ hall)]
  refine ⟨_, rfl, ?_, ?_⟩
  · exact insertion_sort_perm _ _
  · intro hns
    exact pairwise_insertion_sort (P := fun p : String × Score => p.2.isSome = true)
      (cmp_le score_cmp_desc)
      (fun x y _ _ => cmp_le_total x y)
      (fun x y z hx hy hz => cmp_le_trans_of_some hx hy hz)
      _ hns

/-- C4 counterexample.  With a two-page listing (`c4c_lister`), the merge
reads only the first page's shard, so document `d2` — stored in the shard
listed on the second page, which full pagination (`BulkReader.list`) does
return — is missing from the merged result, contradicting "lists every
shard key ... paginated to completion". -/
theorem c4_merge_counterexample :
    KeywordManager.merge_keyword_shards c4c_lister 48 c4c_store c4c_dser "i" "w"
      = some [("d1", some 1)] ∧
    BulkReader.list c4c_lister (keyword_shard_key_stem "i" "w") 10
      = ["i:kw:w:0", "i:kw:w:1"] ∧
    ("d2", (some 2 : Score)) ∉ [(("d1" : String), (some 1 : Score))] := by
  refine ⟨?_, ?_, ?_⟩ <;> decide

/-- Witness for C4 at a concrete one-page listing with one present shard. -/
theorem c4_merge_first_page_witness :
    (∀ k ∈ (c4w_lister (keyword_shard_key_stem "i" "w") none).keys,
      ((c4w_store k).bind c4w_dser).isSome) ∧
    (0 < get_keyword_limit 48) ∧
    (∀ k ∈ (c4w_lister (keyword_shard_key_stem "i" "w") none).keys, ',' ∉ k.data) ∧
    (∀ k ∈ (c4w_lister (keyword_shard_key_stem "i" "w") none).keys,
      k.data.all (fun c => c.isWhitespace) = false) ∧
    (∀ k ∈ (c4w_lister (keyword_shard_key_stem "i" "w") none).keys,
      ((c4w_store k).getD []).length < 4294967296) ∧
    (∃ r, KeywordManager.merge_keyword_shards c4w_lister 48 c4w_store c4w_dser "i" "w"
        = some r ∧
      r.Perm ((((c4w_lister (keyword_shard_key_stem "i" "w") none).keys.filterMap
          (fun k => (c4w_store k).bind c4w_dser)).map (fun d => d.docs)).flatten) ∧
      ((∀ p ∈ (((c4w_lister (keyword_shard_key_stem "i" "w") none).keys.filterMap
          (fun k => (c4w_store k).bind c4w_dser)).map (fun d => d.docs)).flatten,
          (p : String × Score).2.isSome) →
        r.Pairwise (fun a b => cmp_le score_cmp_desc a b = true))) :=
  ⟨by decide, by decide, by decide, by decide, by decide,
    c4_merge_first_page c4w_lister 48 c4w_store c4w_dser "i" "w" (by decide) (by decide)
      (by decide) (by decide) (by decide)⟩

theorem from_keyword_docs (hash : String → Nat) (n_shards now : Nat) (st : Stores)
    (index doc_id keyword : String) :
    (KeywordShardData.from_keyword hash n_shards now st index doc_id keyword).2.docs
      = st.docs := by
  unfold KeywordShardData.from_keyword
  dsimp only
  split <;> rfl

theorem update_remove_step_docs (hash : String → Nat) (n_shards now : Nat)
    (index doc_id : String) (st : Stores) (kw : String) :
    (Document.update_remove_step hash n_shards now index doc_id st kw).docs = st.docs := by
  unfold Document.update_remove_step
  dsimp only
  split <;> exact from_keyword_docs hash n_shards now st index doc_id kw

theorem update_add_step_docs (hash : String → Nat) (n_shards now : Nat)
    (index doc_id : String) (st : Stores) (kw_score : String × Score) :
    (Document.update_add_step hash n_shards now index doc_id st kw_score).docs = st.docs := by
  unfold Document.update_add_step
  dsimp only
  split <;> exact from_keyword_docs hash n_shards now st index doc_id kw_score.1

theorem foldl_docs_invariant {γ : Type _} (f : Stores → γ → Stores)
    (hf : ∀ st a, (f st a).docs = st.docs) :
    ∀ (l : List γ) (st : Stores), (l.foldl f st).docs = st.docs := by
  intro l
  induction l with
  | nil =>
    intro st
    rfl
  | cons a l ih =>
    intro st
    rw [List.foldl_cons, ih, hf]

/-- C9 (amended).  Every successful `Document::update` returns and persists
revision `(old + 1) mod 2^32` — equal to `old + 1` except at the `u32`
wraparound `old = u32::MAX`, where the release-mode increment wraps to 0. -/
theorem c9_update_revision (hash : String → Nat) (n_shards : Nat)
    (detect : String → Option String) (extract : String → String → List (String × Score))
    (now : Nat) (doc : Document) (st : Stores) (body : String) (rl : Bool)
    (h : (Document.update hash n_shards detect extract now doc st body rl).isSome) :
    ∃ d' st' r, Document.update hash n_shards detect extract now doc st body rl
        = some (d', st', r) ∧
      r = (doc.revision + 1) % 4294967296 ∧
      d'.revision = (doc.revision + 1) % 4294967296 ∧
      st'.docs (document_kv_key doc.index doc.uuid) = some d' ∧
      (doc.revision + 1 < 4294967296 → r = doc.revision + 1) := by
  unfold Document.update at h ⊢
  cases hl : (if doc.lang.isNone ∨ rl then
      match detect body with
      | some l => some l
      | none => doc.lang
    else doc.lang) with
  | none =>
    rw [hl] at h
    exact absurd h (by simp)
  | some lang =>
    dsimp only
    refine ⟨_, _, _, rfl, rfl, rfl, ?_, ?_⟩
    · rw [foldl_docs_invariant _ (fun st' a =>
          update_add_step_docs hash n_shards now doc.index doc.uuid st' a),
        foldl_docs_invariant _ (fun st' a =>
          update_remove_step_docs hash n_shards now doc.index doc.uuid st' a)]
      simp [put_doc]
    · intro hlt
      exact Nat.mod_eq_of_lt hlt

/-- Witness for C9 at a fresh document with a language already set. -/
theorem c9_update_revision_witness :
    ((Document.update (fun _ => 0) 48 (fun _ => none) (fun _ _ => []) 5
        ⟨"d", "i", 0, some "en", none, none⟩ empty_stores "b" false).isSome) ∧
    (∃ d' st' r, Document.update (fun _ => 0) 48 (fun _ => none) (fun _ _ => []) 5
        ⟨"d", "i", 0, some "en", none, none⟩ empty_stores "b" false
        = some (d', st', r) ∧
      r = ((⟨"d", "i", 0, some "en", none, none⟩ : Document).revision + 1) % 4294967296 ∧
      d'.revision
        = ((⟨"d", "i", 0, some "en", none, none⟩ : Document).revision + 1) % 4294967296 ∧
      st'.docs (document_kv_key (⟨"d", "i", 0, some "en", none, none⟩ : Document).index
        (⟨"d", "i", 0, some "en", none, none⟩ : Document).uuid) = some d' ∧
      ((⟨"d", "i", 0, some "en", none, none⟩ : Document).revision + 1 < 4294967296 →
        r = (⟨"d", "i", 0, some "en", none, none⟩ : Document).revision + 1)) :=
  ⟨rfl, c9_update_revision (fun _ => 0) 48 (fun _ => none) (fun _ _ => []) 5
    ⟨"d", "i", 0, some "en", none, none⟩ empty_stores "b" false rfl⟩

/-- C9 counterexample.  At revision `u32::MAX = 4294967295` a successful
update returns revision 0, not `old + 1`: the claim fails at the `u32`
wraparound. -/
theorem c9_revision_wraps :
    (Document.update (fun _ => 0) 48 (fun _ => none) (fun _ _ => []) 5 c9_doc empty_stores
        "b" false).map (fun t => t.2.2) = some 0 ∧
    c9_doc.revision = 4294967295 ∧ (0 : Nat) ≠ 4294967295 + 1 := by
  refine ⟨rfl, rfl, by decide⟩

theorem zip_enrich_doc_ids (documents : List SearchResultRow) :
    ∀ bodies : List Document, documents.length ≤ bodies.length →
    (((documents.zip bodies).map (fun p => { p.1 with body := p.2.document_body })).map
        (fun r => r.doc_id))
      = documents.map (fun r => r.doc_id) := by
  induction documents with
  | nil =>
    intro bodies _
    rfl
  | cons d ds ih =>
    intro bodies hlen
    cases bodies with
    | nil => simp at hlen
    | cons b bs =>
      simp only [List.zip_cons_cons, List.map_cons]
      rw [ih bs (by simpa using hlen)]

/-- C10.  Full-body enrichment is total only when every matched doc-id has a
document record: on the per-key path (fewer than `document_limit` results),
one missing or undecodable document key makes `Document::read(..).unwrap()`
panic, so `full=true` dies instead of returning results with that body
omitted; when every key is present the enriched rows come back in the
original order. -/
theorem c10_full_enrichment (n_shards : Nat) (store : KvStore)
    (dser : List Nat → Option Document) (index : String)
    (documents : List SearchResultRow)
    (hlen : documents.length < get_document_limit) :
    ((∃ rrow ∈ documents,
        ((store (document_kv_key index rrow.doc_id)).bind dser) = none) →
      handle_search_full n_shards store dser index documents = none) ∧
    ((∀ rrow ∈ documents,
        ((store (document_kv_key index rrow.doc_id)).bind dser).isSome) →
      ∃ rows, handle_search_full n_shards store dser index documents = some rows ∧
        rows.map (fun r => r.doc_id) = documents.map (fun r => r.doc_id)) := by
  have hkeys : (documents.map (fun r => document_kv_key index r.doc_id)).length
      = documents.length := List.length_map _ _
  constructor
  · rintro ⟨rrow, hr, hnone⟩
    unfold handle_search_full BulkReader.get_documents_kv_keys
    dsimp only
    rw [if_pos (by rw [hkeys]; exact hlen)]
    rw [option_traverse_eq_none (fun k => (store k).bind dser) _
      (List.mem_map_of_mem _ hr) hnone]
  · intro hall
    unfold handle_search_full BulkReader.get_documents_kv_keys
    dsimp only
    rw [if_pos (by rw [hkeys]; exact hlen)]
    have hallk : ∀ k ∈ documents.map (fun r => document_kv_key index r.doc_id),
        ((store k).bind dser).isSome := by
      intro k hk
      obtain ⟨rrow, hr, rfl⟩ := List.mem_map.mp hk
      exact hall rrow hr
    rw [option_traverse_eq_some_filterMap _ _ hallk]
    dsimp only
    have hblen : (List.filterMap (fun k => (store k).bind dser)
        (documents.map (fun r => document_kv_key index r.doc_id))).length
        = documents.length := by
      rw [filterMap_length_of_isSome _ _ hallk, hkeys]
    rw [if_pos (le_of_eq hblen.symm)]
    exact ⟨_, rfl, zip_enrich_doc_ids documents _ (le_of_eq hblen.symm)⟩

/-- Witness for C10: one result row whose document key is absent from the
store makes the enrichment path panic (`none`). -/
theorem c10_full_enrichment_witness :
    ([c10_row].length < get_document_limit) ∧
    handle_search_full 48 (fun _ => none) (fun _ => none) "i" [c10_row] = none :=
  ⟨by decide,
    (c10_full_enrichment 48 (fun _ => none) (fun _ => none) "i" [c10_row] (by decide)).1
      ⟨c10_row, by decide, rfl⟩⟩
